import Mathlib

/-!
Verification of the ntHash rolling-hash engine (nthash-rs).

The Rust sources under src/ are shallowly embedded: u64 values become `Nat`
with explicit reduction modulo `2 ^ 64` wherever the Rust code wraps,
sequences become `List Nat` of byte values, fallible constructors return
`Except` (or `Outcome`, which can also record a panic), and the stateful
hashers become explicit state-passing functions.  The numeric constant
tables live in constants.rs, which is not part of the sources here; they
are modelled from the specification (which fixes `SEED_N = 0` and treats
the remaining table entries as opaque reference constants).
-/

set_option maxRecDepth 10000

namespace NtHashRs

/-- The modulus of wrapping 64-bit (u64 / usize) arithmetic. -/
def U64 : Nat := 2 ^ 64

/-- One-bit split-rotate left, from src/tables.rs `srol`:
the wrap bits (bit 63 into bit 33, bit 32 into bit 0) are extracted,
the word is shifted left and masked, and the wrap bits are re-inserted. -/
def srol (x : Nat) : Nat :=
  ((x <<< 1) &&& 0xFFFFFFFDFFFFFFFF) |||
    (((x &&& 0x8000000000000000) >>> 30) ||| ((x &&& 0x0000000100000000) >>> 32))

/-- The Rust local `v` of src/tables.rs `srol_n` (valid for `1 ≤ d ≤ 63`):
`x.rotate_left(d)`, i.e. the wrapping shift left ORed with the complementary
shift right. -/
def srolnV (x d : Nat) : Nat :=
  ((x <<< d) % U64) ||| (x >>> (64 - d))

/-- The Rust local `y` of src/tables.rs `srol_n`: the bits that straddle the
33/31 boundary, `(v ^ (v >> 33)) & (!0u64 >> (64 - d))`. -/
def srolnY (x d : Nat) : Nat :=
  (srolnV x d ^^^ (srolnV x d >>> 33)) &&& ((U64 - 1) >>> (64 - d))

/-- Arbitrary-distance split-rotate, from src/tables.rs `srol_n`:
early return at `d = 0`, otherwise `v ^ (y | (y << 33))` with the Rust
`y << 33` wrapping at 64 bits. -/
def srol_n (x d : Nat) : Nat :=
  if d = 0 then x
  else srolnV x d ^^^ (srolnY x d ||| ((srolnY x d <<< 33) % U64))

/-- One-bit split-rotate right, from src/tables.rs `sror`:
the wrap bits (bit 33 into bit 63, bit 0 into bit 32) are extracted,
the word is shifted right and masked, and the wrap bits are re-inserted. -/
def sror (x : Nat) : Nat :=
  ((x >>> 1) &&& 0xFFFFFFFEFFFFFFFF) |||
    (((x &&& 0x0000000200000000) <<< 30) ||| ((x &&& 0x0000000000000001) <<< 32))

/-- Modelled from the spec: constants.rs is not under src/.  Per-base seed
for `A`; the spec treats the numeric value as an opaque reference constant. -/
def SEED_A : Nat := 0x3c8bfbb395c60474

/-- Modelled from the spec: per-base seed for `C` (opaque reference constant). -/
def SEED_C : Nat := 0x3193c18562a02b4c

/-- Modelled from the spec: per-base seed for `G` (opaque reference constant). -/
def SEED_G : Nat := 0x20323ed082572324

/-- Modelled from the spec: per-base seed for `T` (opaque reference constant). -/
def SEED_T : Nat := 0x295549f54be24456

/-- Modelled from the spec: the seed of an ambiguous base; the spec fixes
`SEED_N = 0` and makes ambiguity mean exactly `SEED_TAB[b] == SEED_N`. -/
def SEED_N : Nat := 0

/-- Modelled from the spec: `SEED_TAB` maps the bytes of `A,C,G,T` to their
per-base seeds, and `N` together with every unmapped byte to `SEED_N`. -/
def SEED_TAB (b : Nat) : Nat :=
  if b = 65 then SEED_A
  else if b = 67 then SEED_C
  else if b = 71 then SEED_G
  else if b = 84 then SEED_T
  else SEED_N

/-- Modelled from the spec: `CP_OFF`, the byte mask used by the
reverse-complement paths; its value is an opaque reference constant and no
theorem below depends on it. -/
def CP_OFF : Nat := 0x15

/-- Modelled from the spec: the derived-hash mixing constant `MULTISEED`;
an opaque reference parameter, no theorem below depends on its value. -/
def MULTISEED : Nat := 0x90b45d39fb6da1fa

/-- Modelled from the spec: the derived-hash avalanche shift `MULTISHIFT`;
an opaque reference parameter, no theorem below depends on its value. -/
def MULTISHIFT : Nat := 27

/-- Modelled from the spec: src/tables.rs `srol_table(c, d)` reads
`MS_TAB_31L[c][d mod 31] | MS_TAB_33R[c][d mod 33]` from tables of
constants.rs, which the spec defines by the property that the OR equals the
`d`-fold split-rotate of `SEED_TAB[c]`; that defining property is used
directly here (the per-field moduli 31 and 33 are exactly the periods of the
split-rotate on the two fields). -/
def srol_table (c d : Nat) : Nat :=
  Nat.iterate srol d (SEED_TAB c)

/-- `canonical` from src/util.rs: wrapping 64-bit addition of the two strand
hashes. -/
def canonical (fwd rev : Nat) : Nat := (fwd + rev) % U64

/-- `extend_hashes` from src/util.rs.  The in-place slice update is modelled
by rebuilding the list index-wise: the Rust loop writes the canonical hash
into slot 0 and the avalanche mix into every slot `i ≥ 1`, and returns at
once on an empty slice. -/
def extendHashes (fwd rev k : Nat) (hashes : List Nat) : List Nat :=
  if hashes.length = 0 then hashes
  else
    (List.range hashes.length).map (fun i =>
      if i = 0 then canonical fwd rev
      else
        ((canonical fwd rev * (i ^^^ ((k * MULTISEED) % U64))) % U64) ^^^
          (((canonical fwd rev * (i ^^^ ((k * MULTISEED) % U64))) % U64) >>> MULTISHIFT))

/-- The next-window forward-hash update (src/kmer.rs `next_forward_hash`;
src/blind.rs carries an identical copy). -/
def next_forward_hash (prev k char_out char_in : Nat) : Nat :=
  (srol prev ^^^ SEED_TAB char_in) ^^^ srol_table char_out k

/-- The previous-window forward-hash update (src/kmer.rs `prev_forward_hash`;
src/blind.rs carries an identical copy). -/
def prev_forward_hash (prev k char_out char_in : Nat) : Nat :=
  sror ((prev ^^^ srol_table char_in k) ^^^ SEED_TAB char_out)

/-- The next-window reverse-hash update (src/kmer.rs `next_reverse_hash`;
src/blind.rs carries an identical copy). -/
def next_reverse_hash (prev k char_out char_in : Nat) : Nat :=
  sror ((prev ^^^ srol_table (char_in &&& CP_OFF) k) ^^^ SEED_TAB (char_out &&& CP_OFF))

/-- The previous-window reverse-hash update (src/kmer.rs `prev_reverse_hash`;
src/blind.rs carries an identical copy). -/
def prev_reverse_hash (prev k char_out char_in : Nat) : Nat :=
  (srol prev ^^^ SEED_TAB (char_in &&& CP_OFF)) ^^^ srol_table (char_out &&& CP_OFF) k

/-- Modelled from the spec: src/kmer.rs `base_forward_hash` computes the
window hash in 4-byte chunks via `CONVERT_TAB`/`TETRAMER_TAB` tables from the
absent constants.rs; the spec (section 4.3) defines the result as the
iterated split-rotate XOR of the per-base seeds over the first `k` bytes and
requires the chunked form to agree with this bit-for-bit. -/
def base_forward_hash (seq : List Nat) (k : Nat) : Nat :=
  (seq.take k).foldl (fun h c => srol h ^^^ SEED_TAB c) 0

/-- Modelled from the spec: src/kmer.rs `base_reverse_hash` is the chunked
`RC_CONVERT_TAB` form of the spec's (section 4.3) right-to-left iterated
split-rotate XOR of the complemented per-base seeds, with
`complement(b) = b XOR CP_OFF`. -/
def base_reverse_hash (seq : List Nat) (k : Nat) : Nat :=
  ((seq.take k).reverse).foldl (fun h c => srol h ^^^ SEED_TAB (c ^^^ CP_OFF)) 0

/-- The crate-level error type from src/lib.rs / the spec's failure surface. -/
inductive NtHashError where
  | InvalidK
  | SequenceTooShort (seq_len : Nat) (k : Nat)
  | PositionOutOfRange (pos : Nat) (seq_len : Nat)
  | InvalidSequence
  | InvalidWindowOffsets
deriving DecidableEq

instance {ε α : Type} [DecidableEq ε] [DecidableEq α] : DecidableEq (Except ε α) := by
  intro a b
  cases a <;> cases b
  case error.error e f => exact decidable_of_iff (e = f) (by simp)
  case error.ok e v => exact isFalse (by simp)
  case ok.error v e => exact isFalse (by simp)
  case ok.ok v w => exact decidable_of_iff (v = w) (by simp)

/-- The result of running a Rust function that may also panic. -/
inductive Outcome (α : Type) where
  | ok (a : α)
  | err (e : NtHashError)
  | panicked
deriving DecidableEq

/-- The state of src/kmer.rs `NtHash` (field `initialised` is spelled as in
src/seed.rs). -/
structure NtHashState where
  seq : List Nat
  k : Nat
  pos : Nat
  initialised : Bool
  fwd_hash : Nat
  rev_hash : Nat
  hashes : List Nat
deriving DecidableEq

/-- `NtHash::new` from src/kmer.rs: the three argument checks in order,
then the uninitialised state with a zeroed hash buffer. -/
def ntNew (seq : List Nat) (k num_hashes pos : Nat) : Except NtHashError NtHashState :=
  if k = 0 then .error .InvalidK
  else if seq.length < k then .error (.SequenceTooShort seq.length k)
  else if pos > seq.length - k then .error (.PositionOutOfRange pos seq.length)
  else .ok ⟨seq, k, pos, false, 0, 0, List.replicate num_hashes 0⟩

/-- The `rposition` scan of src/kmer.rs `has_invalid_base`: the rightmost
index of a byte whose seed is `SEED_N`, if any. -/
def rpositionN : List Nat → Option Nat
  | [] => none
  | c :: cs =>
    match rpositionN cs with
    | some i => some (i + 1)
    | none => if SEED_TAB c = SEED_N then some 0 else none

/-- src/kmer.rs `has_invalid_base(seq, k, ..)` restricted to the first `k`
bytes, returning the rightmost ambiguous index. -/
def rposN (w : List Nat) (k : Nat) : Option Nat :=
  rpositionN (w.take k)

/-- The scanning loop of src/kmer.rs `NtHash::init`, with an explicit fuel
bound on the number of loop iterations (the loop body advances `pos` by at
least one, so `seq.length + 1` iterations always suffice and the
out-of-fuel branch is unreachable from `ntInitScan`): from `pos`, while
`pos <= len - k`, jump past the rightmost ambiguous base of the rejected
window (`pos += skip + 1`); returns whether a valid window was found,
together with the final value of `pos`. -/
def ntInitScanAux (seq : List Nat) (k : Nat) : Nat → Nat → Bool × Nat
  | 0, pos => (false, pos)
  | fuel + 1, pos =>
    if pos ≤ seq.length - k then
      match rposN (seq.drop pos) k with
      | some skip => ntInitScanAux seq k fuel (pos + skip + 1)
      | none => (true, pos)
    else (false, pos)

/-- The scanning loop of src/kmer.rs `NtHash::init` (see `ntInitScanAux`). -/
def ntInitScan (seq : List Nat) (k pos : Nat) : Bool × Nat :=
  ntInitScanAux seq k (seq.length + 1) pos

/-- src/kmer.rs `NtHash::init`: on success the accumulators are recomputed
from the window at the found position, the hash buffer is refilled and the
hasher is marked initialised; on failure only `pos` has moved. -/
def ntInit (st : NtHashState) : Bool × NtHashState :=
  match ntInitScan st.seq st.k st.pos with
  | (true, p) =>
    (true,
      { st with
        pos := p
        initialised := true
        fwd_hash := base_forward_hash (st.seq.drop p) st.k
        rev_hash := base_reverse_hash (st.seq.drop p) st.k
        hashes := extendHashes (base_forward_hash (st.seq.drop p) st.k)
          (base_reverse_hash (st.seq.drop p) st.k) st.k st.hashes })
  | (false, p) => (false, { st with pos := p })

/-- src/kmer.rs `NtHash::roll`. -/
def ntRoll (st : NtHashState) : Bool × NtHashState :=
  if st.initialised = false then ntInit st
  else if st.seq.length - st.k ≤ st.pos then (false, st)
  else if SEED_TAB (st.seq.getD (st.pos + st.k) 0) = SEED_N then
    ntInit { st with pos := st.pos + st.k }
  else
    (true,
      { st with
        fwd_hash := next_forward_hash st.fwd_hash st.k (st.seq.getD st.pos 0)
          (st.seq.getD (st.pos + st.k) 0)
        rev_hash := next_reverse_hash st.rev_hash st.k (st.seq.getD st.pos 0)
          (st.seq.getD (st.pos + st.k) 0)
        hashes := extendHashes
          (next_forward_hash st.fwd_hash st.k (st.seq.getD st.pos 0)
            (st.seq.getD (st.pos + st.k) 0))
          (next_reverse_hash st.rev_hash st.k (st.seq.getD st.pos 0)
            (st.seq.getD (st.pos + st.k) 0))
          st.k st.hashes
        pos := st.pos + 1 })

/-- src/kmer.rs `NtHash::roll_back` (note that when the hasher is not yet
initialised and `init` succeeds, the Rust code continues with the state that
`init` produced). -/
def ntRollBack (st : NtHashState) : Bool × NtHashState :=
  match (if st.initialised = false then ntInit st else (true, st)) with
  | (false, st1) => (false, st1)
  | (true, st1) =>
    if st1.pos = 0 then (false, st1)
    else if SEED_TAB (st1.seq.getD (st1.pos - 1) 0) = SEED_N then
      if st1.pos < st1.k then (false, st1)
      else ntInit { st1 with pos := st1.pos - st1.k }
    else
      (true,
        { st1 with
          fwd_hash := prev_forward_hash st1.fwd_hash st1.k
            (st1.seq.getD (st1.pos + st1.k - 1) 0) (st1.seq.getD (st1.pos - 1) 0)
          rev_hash := prev_reverse_hash st1.rev_hash st1.k
            (st1.seq.getD (st1.pos + st1.k - 1) 0) (st1.seq.getD (st1.pos - 1) 0)
          hashes := extendHashes
            (prev_forward_hash st1.fwd_hash st1.k
              (st1.seq.getD (st1.pos + st1.k - 1) 0) (st1.seq.getD (st1.pos - 1) 0))
            (prev_reverse_hash st1.rev_hash st1.k
              (st1.seq.getD (st1.pos + st1.k - 1) 0) (st1.seq.getD (st1.pos - 1) 0))
            st1.k st1.hashes
          pos := st1.pos - 1 })

/-- The state of src/blind.rs `BlindNtHash`; the `VecDeque` window is a list
with its front at the head. -/
structure BlindState where
  window : List Nat
  k : Nat
  pos : Int
  fwd_hash : Nat
  rev_hash : Nat
  hashes : List Nat
deriving DecidableEq

/-- `BlindNtHash::new` from src/blind.rs, with release-mode (wrapping) usize
arithmetic: the constructor has no `SequenceTooShort` branch, `len - k_usz`
is a wrapping subtraction, and the slice `seq[pos..pos+k]` panics when it
runs past the end of the sequence (a debug build already panics at the
underflowing subtraction when `len < k`; both builds panic rather than
return an error there). -/
def blindNew (seq : List Nat) (k num_hashes : Nat) (pos : Int) : Outcome BlindState :=
  if k = 0 then .err .InvalidK
  else
    if pos < 0 ∨ (pos % (U64 : Int)).toNat > (seq.length + U64 - k) % U64 then
      .err (.PositionOutOfRange (pos % (U64 : Int)).toNat seq.length)
    else if (pos % (U64 : Int)).toNat + k ≤ seq.length then
      .ok
        ⟨(seq.drop (pos % (U64 : Int)).toNat).take k, k, pos,
          base_forward_hash ((seq.drop (pos % (U64 : Int)).toNat).take k) k,
          base_reverse_hash ((seq.drop (pos % (U64 : Int)).toNat).take k) k,
          extendHashes (base_forward_hash ((seq.drop (pos % (U64 : Int)).toNat).take k) k)
            (base_reverse_hash ((seq.drop (pos % (U64 : Int)).toNat).take k) k) k
            (List.replicate num_hashes 0)⟩
    else .panicked

/-- src/blind.rs `BlindNtHash::roll`: pop the front of the window (`none`
models the `expect` panic on an empty window), push the incoming byte at the
back, update both accumulators, refill the buffer, advance `pos`. -/
def blindRoll (st : BlindState) (char_in : Nat) : Option (Bool × BlindState) :=
  match st.window with
  | [] => none
  | char_out :: rest =>
    some (true,
      { st with
        window := rest ++ [char_in]
        fwd_hash := next_forward_hash st.fwd_hash st.k char_out char_in
        rev_hash := next_reverse_hash st.rev_hash st.k char_out char_in
        hashes := extendHashes (next_forward_hash st.fwd_hash st.k char_out char_in)
          (next_reverse_hash st.rev_hash st.k char_out char_in) st.k st.hashes
        pos := st.pos + 1 })

/-- src/blind.rs `BlindNtHash::roll_back`: pop the back of the window,
push the incoming byte at the front, update the accumulators with the
previous-window formulas, refill the buffer, retreat `pos`. -/
def blindRollBack (st : BlindState) (char_in : Nat) : Option (Bool × BlindState) :=
  match st.window.getLast? with
  | none => none
  | some char_out =>
    some (true,
      { st with
        window := char_in :: st.window.dropLast
        fwd_hash := prev_forward_hash st.fwd_hash st.k char_out char_in
        rev_hash := prev_reverse_hash st.rev_hash st.k char_out char_in
        hashes := extendHashes (prev_forward_hash st.fwd_hash st.k char_out char_in)
          (prev_reverse_hash st.rev_hash st.k char_out char_in) st.k st.hashes
        pos := st.pos - 1 })

/-- `parse_seed_string` from src/seed.rs: a mask whose length differs from
`k` yields `InvalidK`, a mask with a byte other than `b,0,` / `b,1,`
(ASCII 48 / 49) yields `InvalidSequence`, otherwise the indices of the `1`
characters are collected. -/
def parse_seed_string (mask : List Nat) (k : Nat) : Except NtHashError (List Nat) :=
  if mask.length ≠ k then .error .InvalidK
  else if (mask.all (fun b => b == 48 || b == 49)) = false then .error .InvalidSequence
  else .ok (mask.enum.filterMap (fun p => if p.2 = 49 then some p.1 else none))

/-- The mask-parsing loop of src/seed.rs `SeedNtHash::new`: each mask is
parsed in order and the first error is propagated (the Rust `?` operator). -/
def parseMasks (masks : List (List Nat)) (k : Nat) : Except NtHashError (List (List Nat)) :=
  match masks with
  | [] => .ok []
  | m :: ms =>
    match parse_seed_string m k with
    | .error e => .error e
    | .ok care =>
      match parseMasks ms k with
      | .error e => .error e
      | .ok rest => .ok (care :: rest)

/-- The state of src/seed.rs `SeedNtHash`. -/
structure SeedState where
  seq : List Nat
  k : Nat
  num_hashes : Nat
  seeds : List (List Nat)
  pos : Nat
  hashes : List Nat
  initialised : Bool
deriving DecidableEq

/-- `SeedNtHash::new` from src/seed.rs: the `k`/length/position checks, then
mask parsing; `num_hashes` is clamped to at least 1 and the flat buffer has
one `num_hashes` block per mask. -/
def seedNew (seq : List Nat) (seed_masks : List (List Nat))
    (num_hashes_per_seed k start_pos : Nat) : Except NtHashError SeedState :=
  if k = 0 then .error .InvalidK
  else if seq.length < k then .error (.SequenceTooShort seq.length k)
  else if start_pos > seq.length - k then .error (.PositionOutOfRange start_pos seq.length)
  else
    match parseMasks seed_masks k with
    | .error e => .error e
    | .ok seeds =>
      .ok ⟨seq, k, max num_hashes_per_seed 1, seeds, start_pos,
        List.replicate (seed_masks.length * max num_hashes_per_seed 1) 0, false⟩

/-- `compute_pair` from src/seed.rs: fold the position-dependent rotated
seeds of the care positions into the forward and reverse accumulators. -/
def compute_pair (window : List Nat) (care : List Nat) (k : Nat) : Nat × Nat :=
  care.foldl (fun fr p =>
    (fr.1 ^^^ srol_table (window.getD p 0) (k - 1 - p),
     fr.2 ^^^ srol_table ((window.getD p 0) &&& CP_OFF) p)) (0, 0)

/-- `SeedNtHash::compute_current` from src/seed.rs: reject the window when
any care position of any seed is ambiguous, otherwise refill each seed's
`num_hashes` block of the flat buffer (the in-place slice writes are
modelled by rebuilding the flat list, which is what they amount to under the
constructor's length invariant). -/
def seedComputeCurrent (st : SeedState) : Bool × SeedState :=
  if st.seeds.any (fun care =>
      care.any (fun p => SEED_TAB (((st.seq.drop st.pos).take st.k).getD p 0) == SEED_N)) then
    (false, st)
  else
    (true,
      { st with hashes :=
        (st.seeds.map (fun care =>
          extendHashes (compute_pair ((st.seq.drop st.pos).take st.k) care st.k).1
            (compute_pair ((st.seq.drop st.pos).take st.k) care st.k).2 st.k
            (List.replicate st.num_hashes 0))).flatten })

/-- The search loop of src/seed.rs `SeedNtHash::init`, with an explicit fuel
bound on the iteration count (the loop advances `pos` by one each time, so
`seq.length + 1` iterations always suffice and the out-of-fuel branch is
unreachable from `seedInit`): step by one until `compute_current` accepts a
window or `pos` walks past `len - k`. -/
def seedInitAux : Nat → SeedState → Bool × SeedState
  | 0, st => (false, st)
  | fuel + 1, st =>
    if st.pos ≤ st.seq.length - st.k then
      match seedComputeCurrent st with
      | (true, st1) => (true, { st1 with initialised := true })
      | (false, _) => seedInitAux fuel { st with pos := st.pos + 1 }
    else (false, st)

/-- The search loop of src/seed.rs `SeedNtHash::init` (see `seedInitAux`). -/
def seedInit (st : SeedState) : Bool × SeedState :=
  seedInitAux (st.seq.length + 1) st

/-- `SeedNtHash::roll` from src/seed.rs: first call initialises; afterwards
a single step advances `pos` and recomputes, returning `compute_current`'s
verdict directly. -/
def seedRoll (st : SeedState) : Bool × SeedState :=
  if st.initialised = false then seedInit st
  else if st.seq.length - st.k ≤ st.pos then (false, st)
  else seedComputeCurrent { st with pos := st.pos + 1 }

/-- The emission sequence of src/seed.rs `SeedNtHashIter::next`, which marks
itself done at the first `false` from `roll`; `fuel` only bounds the number
of steps examined and any value at least the emission count is exact. -/
def seedIterEmit (fuel : Nat) (st : SeedState) : List (Nat × List Nat) :=
  match fuel with
  | 0 => []
  | fuel + 1 =>
    match seedRoll st with
    | (false, _) => []
    | (true, st1) => (st1.pos, st1.hashes) :: seedIterEmit fuel st1

/-- Spec-side definition (sections 4.7 and 4.8): the positions at or after
`start_pos` whose window has no ambiguous base at any care position of any
seed; the spec requires the spaced-seed iterator to emit exactly these. -/
def specValidPositions (seq : List Nat) (k : Nat) (seeds : List (List Nat))
    (start_pos : Nat) : List Nat :=
  (List.range (seq.length + 1 - k)).filter (fun p =>
    decide (start_pos ≤ p) &&
      seeds.all (fun care =>
        care.all (fun q => !(SEED_TAB (((seq.drop p).take k).getD q 0) == SEED_N))))

theorem U64_eq : U64 = 2 ^ 64 := rfl

theorem lor_eq_xor_of_and_eq_zero {a b : Nat} (h : a &&& b = 0) : a ||| b = a ^^^ b := by
  apply Nat.eq_of_testBit_eq
  intro i
  have hi : (a.testBit i && b.testBit i) = false := by
    rw [← Nat.testBit_and, h, Nat.zero_testBit]
  simp only [Nat.testBit_or, Nat.testBit_xor]
  cases ha : a.testBit i <;> cases hb : b.testBit i <;> simp_all

theorem shiftLeft_xor_distrib (a b n : Nat) : (a ^^^ b) <<< n = (a <<< n) ^^^ (b <<< n) := by
  apply Nat.eq_of_testBit_eq
  intro i
  simp only [Nat.testBit_shiftLeft, Nat.testBit_xor, Bool.and_xor_distrib_left]

theorem shiftRight_xor_distrib (a b n : Nat) : (a ^^^ b) >>> n = (a >>> n) ^^^ (b >>> n) := by
  apply Nat.eq_of_testBit_eq
  intro i
  simp only [Nat.testBit_shiftRight, Nat.testBit_xor]

theorem mod_two_pow_xor (a b n : Nat) : (a ^^^ b) % 2 ^ n = (a % 2 ^ n) ^^^ (b % 2 ^ n) := by
  apply Nat.eq_of_testBit_eq
  intro i
  simp only [Nat.testBit_mod_two_pow, Nat.testBit_xor, Bool.and_xor_distrib_left]

theorem xor_mix (p q r s : Nat) : (p ^^^ q) ^^^ (r ^^^ s) = (p ^^^ r) ^^^ (q ^^^ s) := by
  apply Nat.eq_of_testBit_eq
  intro i
  simp only [Nat.testBit_xor]
  cases p.testBit i <;> cases q.testBit i <;> cases r.testBit i <;> cases s.testBit i <;> rfl

theorem xor_mix6 (A1 A2 B1 B2 C1 C2 : Nat) :
    (A1 ^^^ A2) ^^^ ((B1 ^^^ B2) ^^^ (C1 ^^^ C2)) =
      (A1 ^^^ (B1 ^^^ C1)) ^^^ (A2 ^^^ (B2 ^^^ C2)) := by
  rw [xor_mix B1 B2 C1 C2, xor_mix A1 A2 (B1 ^^^ C1) (B2 ^^^ C2)]

theorem srol_carry63 (x : Nat) :
    (x &&& 0x8000000000000000) >>> 30 = (x.testBit 63).toNat * 2 ^ 33 := by
  rw [show (0x8000000000000000 : Nat) = 2 ^ 63 by norm_num, Nat.and_two_pow]
  cases x.testBit 63 <;> simp [Nat.shiftRight_eq_div_pow]

theorem srol_carry32 (x : Nat) :
    (x &&& 0x0000000100000000) >>> 32 = (x.testBit 32).toNat := by
  rw [show (0x0000000100000000 : Nat) = 2 ^ 32 by norm_num, Nat.and_two_pow]
  cases x.testBit 32 <;> simp [Nat.shiftRight_eq_div_pow]

theorem srolA_and_two_pow33 (x : Nat) :
    ((x <<< 1) &&& 0xFFFFFFFDFFFFFFFF) &&& 2 ^ 33 = 0 := by
  rw [Nat.and_assoc, show (0xFFFFFFFDFFFFFFFF &&& 2 ^ 33 : Nat) = 0 by decide, Nat.and_zero]

theorem srolA_and_one (x : Nat) :
    ((x <<< 1) &&& 0xFFFFFFFDFFFFFFFF) &&& 1 = 0 := by
  rw [Nat.and_assoc, show (0xFFFFFFFDFFFFFFFF &&& 1 : Nat) = 1 by decide,
    Nat.and_one_is_mod, Nat.shiftLeft_eq]
  simp

theorem srol_eq_xor (x : Nat) :
    srol x = ((x <<< 1) &&& 0xFFFFFFFDFFFFFFFF) ^^^
      (((x &&& 0x8000000000000000) >>> 30) ^^^ ((x &&& 0x0000000100000000) >>> 32)) := by
  unfold srol
  rw [srol_carry63, srol_carry32]
  cases h1 : x.testBit 63 <;> cases h2 : x.testBit 32
  · simp
  · simpa using lor_eq_xor_of_and_eq_zero (srolA_and_one x)
  · simpa using lor_eq_xor_of_and_eq_zero (srolA_and_two_pow33 x)
  · simp only [Bool.toNat_true, Nat.one_mul, Nat.mul_one]
    rw [show (2 ^ 33 ||| 1 : Nat) = 2 ^ 33 ^^^ 1 by decide]
    refine lor_eq_xor_of_and_eq_zero ?_
    rw [Nat.and_xor_distrib_left, srolA_and_two_pow33, srolA_and_one]
    simp

theorem srol_xor (a b : Nat) : srol (a ^^^ b) = srol a ^^^ srol b := by
  rw [srol_eq_xor, srol_eq_xor, srol_eq_xor, shiftLeft_xor_distrib,
    Nat.and_xor_distrib_right, Nat.and_xor_distrib_right, Nat.and_xor_distrib_right,
    shiftRight_xor_distrib, shiftRight_xor_distrib]
  exact xor_mix6 _ _ _ _ _ _

theorem srol_lt (x : Nat) : srol x < U64 := by
  rw [U64_eq]
  unfold srol
  apply Nat.or_lt_two_pow
  · exact Nat.and_lt_two_pow _ (by decide)
  · apply Nat.or_lt_two_pow
    · have h1 : (x &&& 0x8000000000000000) >>> 30 ≤ x &&& 0x8000000000000000 := by
        rw [Nat.shiftRight_eq_div_pow]; exact Nat.div_le_self _ _
      exact lt_of_le_of_lt (h1.trans Nat.and_le_right)
        (by decide : (0x8000000000000000 : Nat) < 2 ^ 64)
    · have h1 : (x &&& 0x0000000100000000) >>> 32 ≤ x &&& 0x0000000100000000 := by
        rw [Nat.shiftRight_eq_div_pow]; exact Nat.div_le_self _ _
      exact lt_of_le_of_lt (h1.trans Nat.and_le_right)
        (by decide : (0x0000000100000000 : Nat) < 2 ^ 64)

theorem sror_carry33 (x : Nat) :
    (x &&& 0x0000000200000000) <<< 30 = (x.testBit 33).toNat * 2 ^ 63 := by
  rw [show (0x0000000200000000 : Nat) = 2 ^ 33 by norm_num, Nat.and_two_pow]
  cases x.testBit 33 <;> simp [Nat.shiftLeft_eq]

theorem sror_carry0 (x : Nat) :
    (x &&& 0x0000000000000001) <<< 32 = (x.testBit 0).toNat * 2 ^ 32 := by
  rw [Nat.and_one_is_mod]
  rcases Nat.mod_two_eq_zero_or_one x with h | h <;>
    rw [h] <;> simp [Nat.testBit_zero, Nat.shiftLeft_eq, h]

theorem srorA_and_two_pow63 (x : Nat) (hx : x < U64) :
    ((x >>> 1) &&& 0xFFFFFFFEFFFFFFFF) &&& 2 ^ 63 = 0 := by
  rw [Nat.and_assoc, show (0xFFFFFFFEFFFFFFFF &&& 2 ^ 63 : Nat) = 2 ^ 63 by decide,
    Nat.and_two_pow]
  have hlt : x >>> 1 < 2 ^ 63 := by
    rw [Nat.shiftRight_eq_div_pow]
    apply Nat.div_lt_of_lt_mul
    rw [U64_eq] at hx
    norm_num
    omega
  rw [Nat.testBit_lt_two_pow hlt]
  simp

theorem srorA_and_two_pow32 (x : Nat) :
    ((x >>> 1) &&& 0xFFFFFFFEFFFFFFFF) &&& 2 ^ 32 = 0 := by
  rw [Nat.and_assoc, show (0xFFFFFFFEFFFFFFFF &&& 2 ^ 32 : Nat) = 0 by decide, Nat.and_zero]

theorem sror_eq_xor (x : Nat) (hx : x < U64) :
    sror x = ((x >>> 1) &&& 0xFFFFFFFEFFFFFFFF) ^^^
      (((x &&& 0x0000000200000000) <<< 30) ^^^ ((x &&& 0x0000000000000001) <<< 32)) := by
  unfold sror
  rw [sror_carry33, sror_carry0]
  cases h1 : x.testBit 33 <;> cases h2 : x.testBit 0
  · simp
  · simpa using lor_eq_xor_of_and_eq_zero (srorA_and_two_pow32 x)
  · simpa using lor_eq_xor_of_and_eq_zero (srorA_and_two_pow63 x hx)
  · simp only [Bool.toNat_true, Nat.one_mul, Nat.mul_one]
    rw [show (2 ^ 63 ||| 2 ^ 32 : Nat) = 2 ^ 63 ^^^ 2 ^ 32 by decide]
    refine lor_eq_xor_of_and_eq_zero ?_
    rw [Nat.and_xor_distrib_left, srorA_and_two_pow63 x hx, srorA_and_two_pow32]
    simp

theorem sror_xor (a b : Nat) (ha : a < U64) (hb : b < U64) :
    sror (a ^^^ b) = sror a ^^^ sror b := by
  have hab : a ^^^ b < U64 := by
    rw [U64_eq] at *
    exact Nat.xor_lt_two_pow ha hb
  rw [sror_eq_xor _ hab, sror_eq_xor a ha, sror_eq_xor b hb, shiftRight_xor_distrib,
    Nat.and_xor_distrib_right, Nat.and_xor_distrib_right, Nat.and_xor_distrib_right,
    shiftLeft_xor_distrib, shiftLeft_xor_distrib]
  exact xor_mix6 _ _ _ _ _ _

theorem srolnV_disjoint (x d : Nat) (hx : x < U64) (hd : d ≤ 63) :
    ((x <<< d) % U64) &&& (x >>> (64 - d)) = 0 := by
  rw [U64_eq] at *
  apply Nat.eq_of_testBit_eq
  intro i
  simp only [Nat.testBit_and, Nat.testBit_mod_two_pow, Nat.testBit_shiftLeft,
    Nat.testBit_shiftRight, Nat.zero_testBit]
  by_cases hdi : d ≤ i
  · have hz : x.testBit (64 - d + i) = false := by
      apply Nat.testBit_lt_two_pow
      exact lt_of_lt_of_le hx (Nat.pow_le_pow_right (by norm_num) (by omega))
    simp [hz]
  · simp [hdi]

theorem srolnMask (d : Nat) (hd : d ≤ 64) : (U64 - 1) >>> (64 - d) = 2 ^ d - 1 := by
  rw [U64_eq]
  apply Nat.eq_of_testBit_eq
  intro i
  simp only [Nat.testBit_shiftRight, Nat.testBit_two_pow_sub_one]
  rw [decide_eq_decide]
  omega

theorem srolnY_lt (x d : Nat) (hd1 : 1 ≤ d) (hd : d ≤ 31) : srolnY x d < 2 ^ 31 := by
  have h1 : srolnY x d ≤ (U64 - 1) >>> (64 - d) := Nat.and_le_right
  rw [srolnMask d (by omega)] at h1
  have h2 : (2 : Nat) ^ d ≤ 2 ^ 31 := Nat.pow_le_pow_right (by norm_num) hd
  omega

theorem srolnY_shift_small (x d : Nat) (hd1 : 1 ≤ d) (hd : d ≤ 31) :
    (srolnY x d <<< 33) % U64 = srolnY x d <<< 33 := by
  apply Nat.mod_eq_of_lt
  rw [U64_eq, Nat.shiftLeft_eq]
  calc srolnY x d * 2 ^ 33 < 2 ^ 31 * 2 ^ 33 :=
        Nat.mul_lt_mul_of_lt_of_le (srolnY_lt x d hd1 hd) (le_refl _) (by norm_num)
    _ = 2 ^ 64 := by norm_num

theorem srolnY_shift_disjoint (x d : Nat) (hd1 : 1 ≤ d) (hd : d ≤ 31) :
    srolnY x d &&& (srolnY x d <<< 33) = 0 := by
  apply Nat.eq_of_testBit_eq
  intro i
  simp only [Nat.testBit_and, Nat.testBit_shiftLeft, Nat.zero_testBit]
  by_cases hi : 33 ≤ i
  · have hz : (srolnY x d).testBit i = false := by
      apply Nat.testBit_lt_two_pow
      exact lt_of_lt_of_le (srolnY_lt x d hd1 hd) (Nat.pow_le_pow_right (by norm_num) (by omega))
    simp [hz]
  · simp [hi]

theorem srol_n_eq (x d : Nat) (hd1 : 1 ≤ d) (hd : d ≤ 31) :
    srol_n x d = srolnV x d ^^^ (srolnY x d ^^^ (srolnY x d <<< 33)) := by
  unfold srol_n
  rw [if_neg (by omega), srolnY_shift_small x d hd1 hd,
    lor_eq_xor_of_and_eq_zero (srolnY_shift_disjoint x d hd1 hd)]

theorem srolnV_eq_xor (x d : Nat) (hx : x < U64) (hd : d ≤ 63) :
    srolnV x d = ((x <<< d) % U64) ^^^ (x >>> (64 - d)) :=
  lor_eq_xor_of_and_eq_zero (srolnV_disjoint x d hx hd)

theorem srolnV_xor (a b d : Nat) (ha : a < U64) (hb : b < U64) (hd : d ≤ 63) :
    srolnV (a ^^^ b) d = srolnV a d ^^^ srolnV b d := by
  have hab : a ^^^ b < U64 := by
    rw [U64_eq] at *
    exact Nat.xor_lt_two_pow ha hb
  rw [srolnV_eq_xor _ d hab hd, srolnV_eq_xor a d ha hd, srolnV_eq_xor b d hb hd,
    shiftLeft_xor_distrib, U64_eq, mod_two_pow_xor, shiftRight_xor_distrib]
  exact xor_mix _ _ _ _

theorem srolnY_xor (a b d : Nat) (ha : a < U64) (hb : b < U64) (hd : d ≤ 63) :
    srolnY (a ^^^ b) d = srolnY a d ^^^ srolnY b d := by
  unfold srolnY
  rw [srolnV_xor a b d ha hb hd, shiftRight_xor_distrib,
    xor_mix (srolnV a d) (srolnV b d), Nat.and_xor_distrib_right]

theorem srol_n_xor (a b d : Nat) (ha : a < U64) (hb : b < U64) (hd : d ≤ 31) :
    srol_n (a ^^^ b) d = srol_n a d ^^^ srol_n b d := by
  by_cases h0 : d = 0
  · subst h0; simp [srol_n]
  · have hd1 : 1 ≤ d := by omega
    rw [srol_n_eq _ d hd1 hd, srol_n_eq a d hd1 hd, srol_n_eq b d hd1 hd,
      srolnV_xor a b d ha hb (by omega), srolnY_xor a b d ha hb (by omega),
      shiftLeft_xor_distrib]
    exact xor_mix6 _ _ _ _ _ _

theorem srol_n_zero_input (d : Nat) : srol_n 0 d = 0 := by
  by_cases h : d = 0
  · simp [srol_n, h]
  · simp [srol_n, h, srolnV, srolnY]

theorem iterate_srol_zero (d : Nat) : Nat.iterate srol d 0 = 0 := by
  induction d with
  | zero => rfl
  | succ n ih => rw [Function.iterate_succ_apply', ih]; decide

theorem iterate_srol_xor (d a b : Nat) :
    Nat.iterate srol d (a ^^^ b) = Nat.iterate srol d a ^^^ Nat.iterate srol d b := by
  induction d with
  | zero => rfl
  | succ n ih =>
    rw [Function.iterate_succ_apply', Function.iterate_succ_apply',
      Function.iterate_succ_apply', ih, srol_xor]

theorem iterate_srol_lt (d x : Nat) (hx : x < U64) : Nat.iterate srol d x < U64 := by
  cases d with
  | zero => exact hx
  | succ n => rw [Function.iterate_succ_apply']; exact srol_lt _

theorem linext (f g : Nat → Nat)
    (hf : ∀ a b, a < U64 → b < U64 → f (a ^^^ b) = f a ^^^ f b)
    (hg : ∀ a b, a < U64 → b < U64 → g (a ^^^ b) = g a ^^^ g b)
    (h0 : f 0 = g 0)
    (hbasis : ∀ j, j < 64 → f (2 ^ j) = g (2 ^ j)) :
    ∀ x, x < U64 → f x = g x := by
  intro x
  induction x using Nat.strong_induction_on with
  | _ x ih =>
    intro hx
    by_cases hx0 : x = 0
    · subst hx0; exact h0
    · have hj : x.log2 < 64 := (Nat.log2_lt hx0).mpr hx
      have h2j : 2 ^ x.log2 ≤ x := Nat.log2_self_le hx0
      have h2j1 : x < 2 ^ (x.log2 + 1) := Nat.lt_log2_self
      have hpos : 0 < 2 ^ x.log2 := Nat.two_pow_pos x.log2
      have hbit : x.testBit x.log2 = true := by
        rw [Nat.testBit_to_div_mod]
        have hle : 1 ≤ x / 2 ^ x.log2 := (Nat.le_div_iff_mul_le hpos).mpr (by omega)
        have hlt : x / 2 ^ x.log2 < 2 := Nat.div_lt_of_lt_mul (by rw [Nat.pow_succ] at h2j1; omega)
        have : x / 2 ^ x.log2 = 1 := by omega
        rw [this]
        rfl
      have hyt : (x ^^^ 2 ^ x.log2).testBit x.log2 = false := by
        rw [Nat.testBit_xor, hbit, Nat.testBit_two_pow_self]
        rfl
      have hylt1 : x ^^^ 2 ^ x.log2 < 2 ^ (x.log2 + 1) := by
        refine Nat.xor_lt_two_pow h2j1 ?_
        rw [Nat.pow_succ]
        omega
      have hyj : x ^^^ 2 ^ x.log2 < 2 ^ x.log2 := by
        apply Nat.lt_pow_two_of_testBit
        intro i hi
        rcases Nat.eq_or_lt_of_le hi with h | h
        · rw [← h]; exact hyt
        · exact Nat.testBit_lt_two_pow
            (lt_of_lt_of_le hylt1 (Nat.pow_le_pow_right (by norm_num) (by omega)))
      have hyx : x ^^^ 2 ^ x.log2 < x := lt_of_lt_of_le hyj h2j
      have hxy : x = 2 ^ x.log2 ^^^ (x ^^^ 2 ^ x.log2) := by
        rw [Nat.xor_comm x (2 ^ x.log2), Nat.xor_cancel_left]
      have hyU : x ^^^ 2 ^ x.log2 < U64 := lt_trans hyx hx
      have h2U : (2 : Nat) ^ x.log2 < U64 := by
        rw [U64_eq]
        exact Nat.pow_lt_pow_right (by norm_num) hj
      calc f x = f (2 ^ x.log2 ^^^ (x ^^^ 2 ^ x.log2)) := by rw [← hxy]
        _ = f (2 ^ x.log2) ^^^ f (x ^^^ 2 ^ x.log2) := hf _ _ h2U hyU
        _ = g (2 ^ x.log2) ^^^ g (x ^^^ 2 ^ x.log2) := by
            rw [hbasis x.log2 hj, ih _ hyx hyU]
        _ = g (2 ^ x.log2 ^^^ (x ^^^ 2 ^ x.log2)) := (hg _ _ h2U hyU).symm
        _ = g x := by rw [← hxy]

theorem srol_basis_check :
    ∀ d, d < 32 → ∀ j, j < 64 → srol_n (2 ^ j) d = Nat.iterate srol d (2 ^ j) := by decide

theorem sror_srol_basis : ∀ j, j < 64 → sror (srol (2 ^ j)) = 2 ^ j := by decide

theorem srol_sror_basis : ∀ j, j < 64 → srol (sror (2 ^ j)) = 2 ^ j := by decide

/-- Helper: `sror` is a left inverse of `srol` on 64-bit values. -/
theorem sror_srol_id (x : Nat) (hx : x < U64) : sror (srol x) = x := by
  refine linext (fun t => sror (srol t)) (fun t => t) ?_ ?_ ?_ ?_ x hx
  · intro a b ha hb
    show sror (srol (a ^^^ b)) = sror (srol a) ^^^ sror (srol b)
    rw [srol_xor, sror_xor _ _ (srol_lt a) (srol_lt b)]
  · intro a b _ _
    rfl
  · decide
  · exact sror_srol_basis

/-- Helper used by the roll inversion proof: `srol` is a left inverse of
`sror` on 64-bit values. -/
theorem srol_sror_id (x : Nat) (hx : x < U64) : srol (sror x) = x := by
  refine linext (fun t => srol (sror t)) (fun t => t) ?_ ?_ ?_ ?_ x hx
  · intro a b ha hb
    show srol (sror (a ^^^ b)) = srol (sror a) ^^^ srol (sror b)
    rw [sror_xor a b ha hb, srol_xor]
  · intro a b _ _
    rfl
  · decide
  · intro j hj
    exact srol_sror_basis j hj

theorem SEED_TAB_lt (b : Nat) : SEED_TAB b < U64 := by
  simp only [SEED_TAB]
  split_ifs <;> decide

theorem srol_table_lt (c d : Nat) : srol_table c d < U64 := by
  unfold srol_table
  cases d with
  | zero => exact SEED_TAB_lt c
  | succ n => rw [Function.iterate_succ_apply']; exact srol_lt _

theorem extendHashes_length (f r k : Nat) (l : List Nat) :
    (extendHashes f r k l).length = l.length := by
  unfold extendHashes
  split
  · rfl
  · simp

theorem extendHashes_congr (f r k : Nat) {l l2 : List Nat} (h : l.length = l2.length) :
    extendHashes f r k l = extendHashes f r k l2 := by
  by_cases hz : l.length = 0
  · have hz2 : l2.length = 0 := by omega
    rw [List.length_eq_zero] at hz hz2
    rw [hz, hz2]
  · have hz2 : ¬l2.length = 0 := by omega
    unfold extendHashes
    rw [if_neg hz, if_neg hz2, h]

theorem rpositionN_none (l : List Nat) (h : rpositionN l = none) :
    ∀ j, j < l.length → SEED_TAB (l.getD j 0) ≠ SEED_N := by
  induction l with
  | nil => intro j hj; simp at hj
  | cons c cs ih =>
    unfold rpositionN at h
    cases hcs : rpositionN cs with
    | some i => rw [hcs] at h; exact absurd h (by simp)
    | none =>
      rw [hcs] at h
      have hc : SEED_TAB c ≠ SEED_N := by
        intro hcN
        rw [if_pos hcN] at h
        exact Option.noConfusion h
      intro j hj
      cases j with
      | zero => simpa using hc
      | succ j2 =>
        simp only [List.getD_cons_succ]
        exact ih hcs j2 (by simpa using hj)

theorem rpositionN_sound (l : List Nat) (i : Nat) (h : rpositionN l = some i) :
    i < l.length ∧ SEED_TAB (l.getD i 0) = SEED_N ∧
      ∀ j, i < j → j < l.length → SEED_TAB (l.getD j 0) ≠ SEED_N := by
  induction l generalizing i with
  | nil => exact absurd h (by simp [rpositionN])
  | cons c cs ih =>
    unfold rpositionN at h
    cases hcs : rpositionN cs with
    | some i2 =>
      rw [hcs] at h
      have hi : i = i2 + 1 := by
        have := Option.some.inj h
        omega
      subst hi
      obtain ⟨h1, h2, h3⟩ := ih i2 hcs
      refine ⟨by simp; omega, by simpa using h2, ?_⟩
      intro j hj hjl
      cases j with
      | zero => omega
      | succ j2 =>
        simp only [List.getD_cons_succ]
        exact h3 j2 (by omega) (by simpa using hjl)
    | none =>
      rw [hcs] at h
      by_cases hc : SEED_TAB c = SEED_N
      · rw [if_pos hc] at h
        have hi : i = 0 := by
          have := Option.some.inj h
          omega
        subst hi
        refine ⟨by simp, by simpa using hc, ?_⟩
        intro j hj hjl
        cases j with
        | zero => omega
        | succ j2 =>
          simp only [List.getD_cons_succ]
          exact rpositionN_none cs hcs j2 (by simpa using hjl)
      · rw [if_neg hc] at h
        exact absurd h (by simp)

theorem rpositionN_eq_some (l : List Nat) (m : Nat) (hm : m < l.length)
    (hN : SEED_TAB (l.getD m 0) = SEED_N)
    (hr : ∀ j, m < j → j < l.length → SEED_TAB (l.getD j 0) ≠ SEED_N) :
    rpositionN l = some m := by
  cases hop : rpositionN l with
  | none => exact absurd hN (rpositionN_none l hop m hm)
  | some i =>
    obtain ⟨h1, h2, h3⟩ := rpositionN_sound l i hop
    rcases lt_trichotomy i m with h | h | h
    · exact absurd hN (h3 m h hm)
    · rw [h]
    · exact absurd h2 (hr i h h1)

theorem ntInitScanAux_fuel_irrel (seq : List Nat) (k : Nat) :
    ∀ fuel1 fuel2 pos, seq.length - k + 1 - pos ≤ fuel1 →
      seq.length - k + 1 - pos ≤ fuel2 →
      ntInitScanAux seq k fuel1 pos = ntInitScanAux seq k fuel2 pos := by
  intro fuel1
  induction fuel1 with
  | zero =>
    intro fuel2 pos h1 h2
    have hpos : seq.length - k < pos := by omega
    cases fuel2 with
    | zero => rfl
    | succ f2 =>
      simp only [ntInitScanAux]
      rw [if_neg (by omega)]
  | succ f1 ih =>
    intro fuel2 pos h1 h2
    by_cases hpos : pos ≤ seq.length - k
    · cases fuel2 with
      | zero => omega
      | succ f2 =>
        simp only [ntInitScanAux]
        rw [if_pos hpos, if_pos hpos]
        cases hw : rposN (seq.drop pos) k with
        | some skip => exact ih f2 (pos + skip + 1) (by omega) (by omega)
        | none => rfl
    · cases fuel2 with
      | zero =>
        simp only [ntInitScanAux]
        rw [if_neg hpos]
      | succ f2 =>
        simp only [ntInitScanAux]
        rw [if_neg hpos, if_neg hpos]

theorem parse_seed_string_ne_invalidK (m : List Nat) (k : Nat) (h : m.length = k) :
    parse_seed_string m k ≠ Except.error NtHashError.InvalidK := by
  unfold parse_seed_string
  rw [if_neg (by omega)]
  split
  · simp
  · simp

theorem parseMasks_ne_invalidK (masks : List (List Nat)) (k : Nat)
    (h : ∀ m ∈ masks, m.length = k) :
    parseMasks masks k ≠ Except.error NtHashError.InvalidK := by
  induction masks with
  | nil => simp [parseMasks]
  | cons m ms ih =>
    unfold parseMasks
    split
    · rename_i e hp
      have hne := parse_seed_string_ne_invalidK m k (h m (by simp))
      rw [hp] at hne
      have he : e ≠ NtHashError.InvalidK := fun h2 => hne (by rw [h2])
      simp [he]
    · rename_i care hp
      split
      · rename_i e2 hms
        have hne := ih (fun m2 hm2 => h m2 (by simp [hm2]))
        rw [hms] at hne
        exact hne
      · simp

/-- Claim C2: with `k > 0` and `len(seq) < k`, `NtHash::new` and
`SeedNtHash::new` return `SequenceTooShort`, but `BlindNtHash::new` has no
such branch and panics (out-of-range slice; in debug builds an underflowing
subtraction), as the evaluation at `seq = "AC"`, `k = 3` shows. -/
theorem c2_sequence_too_short :
    (∀ seq k n p, 0 < k → seq.length < k →
      ntNew seq k n p = Except.error (NtHashError.SequenceTooShort seq.length k)) ∧
    (∀ seq masks n k p, 0 < k → seq.length < k →
      seedNew seq masks n k p = Except.error (NtHashError.SequenceTooShort seq.length k)) ∧
    blindNew [65, 67] 3 1 0 = Outcome.panicked := by
  refine ⟨?_, ?_, by decide⟩
  · intro seq k n p hk hlen
    unfold ntNew
    rw [if_neg (by omega), if_pos hlen]
  · intro seq masks n k p hk hlen
    unfold seedNew
    rw [if_neg (by omega), if_pos hlen]

/-- Witness for C2 at a concrete short sequence. -/
theorem c2_witness :
    ntNew [65] 2 1 0 = Except.error (NtHashError.SequenceTooShort 1 2) ∧
      seedNew [65] [] 1 2 0 = Except.error (NtHashError.SequenceTooShort 1 2) :=
  ⟨c2_sequence_too_short.1 [65] 2 1 0 (by decide) (by decide),
   c2_sequence_too_short.2.1 [65] [] 1 2 0 (by decide) (by decide)⟩

/-- Claim C6 (amended): for every 64-bit `x` and every `d ≤ 31`, `srol_n x d`
equals the `d`-fold iteration of `srol` (in particular `d = 0` is the
identity); the originally claimed range `d < 64` fails from `d = 32` on. -/
theorem c6_srol_n_eq_iterated_srol (x d : Nat) (hx : x < U64) (hd : d ≤ 31) :
    srol_n x d = Nat.iterate srol d x := by
  refine linext (fun t => srol_n t d) (fun t => Nat.iterate srol d t) ?_ ?_ ?_ ?_ x hx
  · intro a b ha hb
    exact srol_n_xor a b d ha hb hd
  · intro a b _ _
    exact iterate_srol_xor d a b
  · show srol_n 0 d = Nat.iterate srol d 0
    rw [srol_n_zero_input, iterate_srol_zero]
  · intro j hj
    exact srol_basis_check d (by omega) j hj

/-- Witness for C6 at `x = 0x0123456789ABCDEF`, `d = 4`. -/
theorem c6_witness :
    (0x0123456789ABCDEF : Nat) < U64 ∧ (4 : Nat) ≤ 31 ∧
      srol_n 0x0123456789ABCDEF 4 = Nat.iterate srol 4 0x0123456789ABCDEF :=
  ⟨by decide, by decide,
   c6_srol_n_eq_iterated_srol 0x0123456789ABCDEF 4 (by decide) (by decide)⟩

/-- Counterexample to C6 as stated: at `x = 2^63`, `d = 32` (within the
claimed range `0 ≤ d < 64`) the fast formula collapses to 0 while the
iterated split-rotate gives `2^33`. -/
theorem c6_counterexample :
    (2 ^ 63 : Nat) < U64 ∧ (32 : Nat) < 64 ∧
      srol_n (2 ^ 63) 32 ≠ Nat.iterate srol 32 (2 ^ 63) := by decide

/-- Claim C7: `sror` is a left inverse of `srol` on every 64-bit word. -/
theorem c7_sror_srol_identity (x : Nat) (hx : x < U64) : sror (srol x) = x :=
  sror_srol_id x hx

/-- Witness for C7 at the reference vector input. -/
theorem c7_witness :
    (0x0123456789ABCDEF : Nat) < U64 ∧
      sror (srol 0x0123456789ABCDEF) = 0x0123456789ABCDEF :=
  ⟨by decide, c7_sror_srol_identity 0x0123456789ABCDEF (by decide)⟩

/-- Claim C8 (amended): the mask `0xFFFF_FFFD_FFFF_FFFF` clears bit 33 (not
bit 32) of the shifted word, so bit 33 of `srol x` is set exactly by the
carry out of bit 63; bit 32 of `srol x` simply receives bit 31 of `x`. -/
theorem c8_srol_bit33_is_carry (x : Nat) : (srol x).testBit 33 = x.testBit 63 := by
  have hA : (((x <<< 1) &&& 0xFFFFFFFDFFFFFFFF)).testBit 33 = false := by
    rw [Nat.testBit_and, show Nat.testBit 0xFFFFFFFDFFFFFFFF 33 = false from by decide]
    simp
  rw [srol_eq_xor, srol_carry63, srol_carry32]
  simp only [Nat.testBit_xor, hA, Bool.false_xor]
  cases h63 : x.testBit 63 <;> cases h32 : x.testBit 32 <;> decide

/-- Counterexample to C8 as stated: `srol (2^31) = 2^32`, whose bit 32 is
set, refuting that bit 32 of a rotate is always zero. -/
theorem c8_counterexample :
    srol (2 ^ 31) = 2 ^ 32 ∧ Nat.testBit (srol (2 ^ 31)) 32 = true := by decide

/-- Claim C9 (amended): every constructor returns `InvalidK` when `k = 0`;
for `k > 0`, `NtHash::new` and `BlindNtHash::new` never return `InvalidK`,
and `SeedNtHash::new` does not return `InvalidK` provided every mask has
length `k` (a mask of a different length also yields `InvalidK`, from
`parse_seed_string`). -/
theorem c9_invalid_k (seq : List Nat) (masks : List (List Nat))
    (n k p : Nat) (pI : Int) :
    (k = 0 → ntNew seq k n p = Except.error NtHashError.InvalidK ∧
      blindNew seq k n pI = Outcome.err NtHashError.InvalidK ∧
      seedNew seq masks n k p = Except.error NtHashError.InvalidK) ∧
    (0 < k → ntNew seq k n p ≠ Except.error NtHashError.InvalidK ∧
      blindNew seq k n pI ≠ Outcome.err NtHashError.InvalidK ∧
      ((∀ m ∈ masks, m.length = k) →
        seedNew seq masks n k p ≠ Except.error NtHashError.InvalidK)) := by
  constructor
  · intro hk
    subst hk
    exact ⟨by simp [ntNew], by simp [blindNew], by simp [seedNew]⟩
  · intro hk
    refine ⟨?_, ?_, ?_⟩
    · unfold ntNew
      rw [if_neg (by omega)]
      split_ifs <;> simp
    · unfold blindNew
      rw [if_neg (by omega)]
      split_ifs <;> simp
    · intro hmasks
      unfold seedNew
      rw [if_neg (by omega)]
      split_ifs
      · simp
      · simp
      · split
        · rename_i e hpm
          have he : e ≠ NtHashError.InvalidK := by
            have hne := parseMasks_ne_invalidK masks k hmasks
            rw [hpm] at hne
            exact fun h2 => hne (by rw [h2])
          simp [he]
        · simp

/-- Witness for C9: both directions at concrete inputs. -/
theorem c9_witness :
    ntNew [] 0 1 0 = Except.error NtHashError.InvalidK ∧
      ntNew [65] 1 1 0 ≠ Except.error NtHashError.InvalidK ∧
      seedNew [65] [[49]] 1 1 0 ≠ Except.error NtHashError.InvalidK :=
  ⟨((c9_invalid_k [] [] 1 0 0 0).1 rfl).1,
   ((c9_invalid_k [65] [] 1 1 0 0).2 (by decide)).1,
   ((c9_invalid_k [65] [[49]] 1 1 0 0).2 (by decide)).2.2 (by decide)⟩

/-- Counterexample to C9 as stated: with `k = 3 > 0` and a mask of length 2,
`SeedNtHash::new` does return `InvalidK`. -/
theorem c9_counterexample :
    (3 : Nat) ≠ 0 ∧
      seedNew [65, 65, 65] [[48, 49]] 1 3 0 = Except.error NtHashError.InvalidK := by
  exact ⟨by decide, by decide⟩

/-- Claim C1 (divergence evidence): over `"ACGTNACGT"` with `k = 3` and the
all-care mask `"111"`, the valid windows are at positions 0, 1, 5 and 6
(`L - k + 1 = 7` windows minus the three touching the `N`), but the
spaced-seed iterator emits only positions 0 and 1: after initialisation the
first ambiguous window makes `roll` return `false` once, which the iterator
treats as exhaustion, so the windows after the ambiguous stretch are never
emitted and skipping does not happen as in standard mode. -/
theorem c1_seed_iterator_stops_at_ambiguity :
    (seedNew [65, 67, 71, 84, 78, 65, 67, 71, 84] [[49, 49, 49]] 1 3 0).map
        (fun st => (seedIterEmit 12 st).map Prod.fst) = Except.ok [0, 1] ∧
      specValidPositions [65, 67, 71, 84, 78, 65, 67, 71, 84] 3 [[0, 1, 2]] 0 =
        [0, 1, 5, 6] := by
  exact ⟨by decide, by decide⟩

/-- Claim C4: `extend_hashes` writes the canonical hash into slot 0, the
avalanche mix of `out[0] · (i XOR k·MULTISEED)` into every later slot, and
leaves an empty slice untouched. -/
theorem c4_extend_hashes (fwd rev k : Nat) (hs : List Nat) :
    (extendHashes fwd rev k hs).length = hs.length ∧
    (0 < hs.length → (extendHashes fwd rev k hs).getD 0 0 = canonical fwd rev) ∧
    (∀ i, 1 ≤ i → i < hs.length →
      (extendHashes fwd rev k hs).getD i 0 =
        ((canonical fwd rev * (i ^^^ ((k * MULTISEED) % U64))) % U64) ^^^
          (((canonical fwd rev * (i ^^^ ((k * MULTISEED) % U64))) % U64) >>> MULTISHIFT)) ∧
    extendHashes fwd rev k [] = [] := by
  refine ⟨extendHashes_length fwd rev k hs, ?_, ?_, rfl⟩
  · intro h0
    unfold extendHashes
    rw [if_neg (by omega)]
    simp [List.getD_eq_getElem?_getD, List.getElem?_map, List.getElem?_range, h0]
  · intro i h1 h2
    unfold extendHashes
    rw [if_neg (by omega)]
    simp [List.getD_eq_getElem?_getD, List.getElem?_map, List.getElem?_range, h2,
      Nat.ne_of_gt h1]

/-- Witness for C4 at a concrete call. -/
theorem c4_witness :
    (0 : Nat) < ([0, 0, 0] : List Nat).length ∧
      (1 : Nat) < ([0, 0, 0] : List Nat).length ∧
      (extendHashes 3 5 7 [0, 0, 0]).getD 0 0 = canonical 3 5 ∧
      (extendHashes 3 5 7 [0, 0, 0]).getD 1 0 =
        ((canonical 3 5 * (1 ^^^ ((7 * MULTISEED) % U64))) % U64) ^^^
          (((canonical 3 5 * (1 ^^^ ((7 * MULTISEED) % U64))) % U64) >>> MULTISHIFT) :=
  ⟨by decide, by decide,
   (c4_extend_hashes 3 5 7 [0, 0, 0]).2.1 (by decide),
   (c4_extend_hashes 3 5 7 [0, 0, 0]).2.2.1 1 (by decide) (by decide)⟩

/-- Claim C10: in blind mode both `roll` and `roll_back` return `true` on
every byte and every reachable state (the window always holds `k > 0`
bytes, so the pops cannot fail and no code path returns `false`). -/
theorem c10_blind_roll_never_fails (st : BlindState) (c : Nat)
    (hk : 0 < st.k) (hw : st.window.length = st.k) :
    (blindRoll st c).map Prod.fst = some true ∧
      (blindRollBack st c).map Prod.fst = some true := by
  constructor
  · cases hwin : st.window with
    | nil =>
      rw [hwin] at hw
      simp at hw
      omega
    | cons a l => simp [blindRoll, hwin]
  · cases hwin : st.window with
    | nil =>
      rw [hwin] at hw
      simp at hw
      omega
    | cons a l =>
      unfold blindRollBack
      rw [hwin]
      cases hlast : (a :: l).getLast? with
      | none => exact absurd hlast (by simp)
      | some o => simp

/-- Witness for C10 at a concrete blind hasher. -/
theorem c10_witness :
    (blindRoll ⟨[65], 1, 0, 0, 0, [0]⟩ 66).map Prod.fst = some true ∧
      (blindRollBack ⟨[65], 1, 0, 0, 0, [0]⟩ 66).map Prod.fst = some true :=
  c10_blind_roll_never_fails ⟨[65], 1, 0, 0, 0, [0]⟩ 66 (by decide) (by decide)

/-- Claim C3: the initialisation scan of standard mode, at a window whose
rightmost ambiguous base sits at window-relative index `m` (ambiguous at
`m`, unambiguous strictly right of `m`), resumes exactly at
`pos + m + 1`; and once the scan position walks past `len - k`, `init`
returns `false` leaving the state (other than the already-final `pos`)
untouched. -/
theorem c3_init_rightmost_skip (st : NtHashState) (m : Nat) :
    (st.k ≤ st.seq.length → st.pos + st.k ≤ st.seq.length → m < st.k →
      SEED_TAB (((st.seq.drop st.pos).take st.k).getD m 0) = SEED_N →
      (∀ i, m < i → i < st.k →
        SEED_TAB (((st.seq.drop st.pos).take st.k).getD i 0) ≠ SEED_N) →
      ntInit st = ntInit { st with pos := st.pos + m + 1 }) ∧
    (st.seq.length - st.k < st.pos → ntInit st = (false, st)) := by
  obtain ⟨seq, k, pos, ini, f, r, hs⟩ := st
  dsimp only
  constructor
  · intro hkl hpk hm hN hr
    have hwlen : ((seq.drop pos).take k).length = k := by
      simp [List.length_take, List.length_drop]
      omega
    have hw : rposN (seq.drop pos) k = some m := by
      unfold rposN
      refine rpositionN_eq_some _ m (by rw [hwlen]; exact hm) hN ?_
      intro j hj hjl
      exact hr j hj (by rwa [hwlen] at hjl)
    have hscan : ntInitScan seq k pos = ntInitScan seq k (pos + m + 1) := by
      unfold ntInitScan
      have hstep : ntInitScanAux seq k (seq.length + 1) pos =
          ntInitScanAux seq k seq.length (pos + m + 1) := by
        simp only [ntInitScanAux]
        rw [if_pos (by omega), hw]
      rw [hstep]
      exact ntInitScanAux_fuel_irrel seq k seq.length (seq.length + 1) (pos + m + 1)
        (by omega) (by omega)
    show ntInit ⟨seq, k, pos, ini, f, r, hs⟩ = ntInit ⟨seq, k, pos + m + 1, ini, f, r, hs⟩
    unfold ntInit
    rw [hscan]
  · intro hlt
    have hscan : ntInitScan seq k pos = (false, pos) := by
      unfold ntInitScan
      simp only [ntInitScanAux]
      rw [if_neg (by omega)]
    unfold ntInit
    rw [hscan]

/-- Witness for C3: over `"ANAA"` with `k = 2` the scan at 0 jumps to 2, and
from position 4 `init` reports exhaustion. -/
theorem c3_witness :
    ntInit ⟨[65, 78, 65, 65], 2, 0, false, 0, 0, [0]⟩ =
        ntInit ⟨[65, 78, 65, 65], 2, 2, false, 0, 0, [0]⟩ ∧
      ntInit ⟨[65, 78, 65, 65], 2, 4, false, 0, 0, [0]⟩ =
        (false, ⟨[65, 78, 65, 65], 2, 4, false, 0, 0, [0]⟩) :=
  ⟨(c3_init_rightmost_skip ⟨[65, 78, 65, 65], 2, 0, false, 0, 0, [0]⟩ 1).1
      (by decide) (by decide) (by decide) (by decide)
      (by intro i h1 h2; dsimp only at h2; omega),
   (c3_init_rightmost_skip ⟨[65, 78, 65, 65], 2, 4, false, 0, 0, [0]⟩ 0).2 (by decide)⟩

theorem xor_unroll (a t s : Nat) : (((a ^^^ t) ^^^ s) ^^^ s) ^^^ t = a := by
  rw [Nat.xor_assoc (a ^^^ t) s s, Nat.xor_self, Nat.xor_zero, Nat.xor_assoc a t t,
    Nat.xor_self, Nat.xor_zero]

/-- Helper: the backward forward-hash update undoes the forward one once the
outgoing/incoming bytes swap roles. -/
theorem roll_forward_inverse (f k o i : Nat) (hf : f < U64) :
    prev_forward_hash (next_forward_hash f k o i) k i o = f := by
  unfold prev_forward_hash next_forward_hash
  have h1 : ((((srol f ^^^ SEED_TAB i) ^^^ srol_table o k) ^^^ srol_table o k) ^^^
      SEED_TAB i) = srol f := by
    rw [Nat.xor_assoc (srol f ^^^ SEED_TAB i), Nat.xor_self, Nat.xor_zero,
      Nat.xor_assoc, Nat.xor_self, Nat.xor_zero]
  rw [h1]
  exact sror_srol_id f hf

/-- Helper: the backward reverse-hash update undoes the forward one. -/
theorem roll_reverse_inverse (r k o i : Nat) (hr : r < U64) :
    prev_reverse_hash (next_reverse_hash r k o i) k i o = r := by
  unfold prev_reverse_hash next_reverse_hash
  have hz : ((r ^^^ srol_table (i &&& CP_OFF) k) ^^^ SEED_TAB (o &&& CP_OFF)) < U64 := by
    rw [U64_eq] at *
    exact Nat.xor_lt_two_pow
      (Nat.xor_lt_two_pow hr (srol_table_lt (i &&& CP_OFF) k))
      (SEED_TAB_lt (o &&& CP_OFF))
  rw [srol_sror_id _ hz]
  exact xor_unroll r (srol_table (i &&& CP_OFF) k) (SEED_TAB (o &&& CP_OFF))

theorem extendHashes_extendHashes (f r f2 r2 k : Nat) (l : List Nat) :
    extendHashes f r k (extendHashes f2 r2 k l) = extendHashes f r k l :=
  extendHashes_congr f r k (extendHashes_length f2 r2 k l)

/-- Helper: one forward roll of an initialised standard hasher whose next
window is in range and unambiguous. -/
theorem ntRoll_step (seq : List Nat) (k pos f r : Nat) (hs : List Nat)
    (hrange : pos + k < seq.length)
    (hin : SEED_TAB (seq.getD (pos + k) 0) ≠ SEED_N) :
    ntRoll ⟨seq, k, pos, true, f, r, hs⟩ =
      (true, ⟨seq, k, pos + 1, true,
        next_forward_hash f k (seq.getD pos 0) (seq.getD (pos + k) 0),
        next_reverse_hash r k (seq.getD pos 0) (seq.getD (pos + k) 0),
        extendHashes (next_forward_hash f k (seq.getD pos 0) (seq.getD (pos + k) 0))
          (next_reverse_hash r k (seq.getD pos 0) (seq.getD (pos + k) 0)) k hs⟩) := by
  unfold ntRoll
  dsimp only
  rw [if_neg (show ¬(true = false) by decide), if_neg (by omega : ¬(seq.length - k ≤ pos)),
    if_neg hin]

/-- Helper: one backward roll of an initialised standard hasher whose
previous byte is unambiguous and whose position is positive. -/
theorem ntRollBack_step (seq : List Nat) (k pos f r : Nat) (hs : List Nat)
    (hpos : pos ≠ 0)
    (hin : SEED_TAB (seq.getD (pos - 1) 0) ≠ SEED_N) :
    ntRollBack ⟨seq, k, pos, true, f, r, hs⟩ =
      (true, ⟨seq, k, pos - 1, true,
        prev_forward_hash f k (seq.getD (pos + k - 1) 0) (seq.getD (pos - 1) 0),
        prev_reverse_hash r k (seq.getD (pos + k - 1) 0) (seq.getD (pos - 1) 0),
        extendHashes (prev_forward_hash f k (seq.getD (pos + k - 1) 0) (seq.getD (pos - 1) 0))
          (prev_reverse_hash r k (seq.getD (pos + k - 1) 0) (seq.getD (pos - 1) 0)) k hs⟩) := by
  unfold ntRollBack
  dsimp only
  rw [if_neg (show ¬(true = false) by decide)]
  dsimp only
  rw [if_neg hpos, if_neg hin]

/-- Claim C5: a forward roll followed by the matching backward roll restores
the full observable state `(pos, fwd_hash, rev_hash, hashes)` — in standard
mode for every initialised hasher over an ambiguity-free region with a next
window available, and in blind mode (including the ring buffer) when the
byte evicted at the front is re-fed to `roll_back`.  The hypotheses on
`fwd_hash`, `rev_hash` and `hashes` are the reachable-state invariants
(64-bit accumulators, buffer refilled from them). -/
theorem c5_roll_roll_back_restores :
    (∀ st : NtHashState, st.initialised = true →
      st.pos + st.k < st.seq.length →
      SEED_TAB (st.seq.getD (st.pos + st.k) 0) ≠ SEED_N →
      SEED_TAB (st.seq.getD st.pos 0) ≠ SEED_N →
      st.fwd_hash < U64 → st.rev_hash < U64 →
      st.hashes = extendHashes st.fwd_hash st.rev_hash st.k st.hashes →
      (ntRoll st).1 = true ∧ ntRollBack (ntRoll st).2 = (true, st)) ∧
    (∀ (st : BlindState) (c o : Nat) (rest : List Nat), st.window = o :: rest →
      st.fwd_hash < U64 → st.rev_hash < U64 →
      st.hashes = extendHashes st.fwd_hash st.rev_hash st.k st.hashes →
      ∃ st1, blindRoll st c = some (true, st1) ∧ blindRollBack st1 o = some (true, st)) := by
  constructor
  · intro st hinit hrange hin hout hfU hrU hinv
    obtain ⟨seq, k, pos, ini, f, r, hs⟩ := st
    dsimp only at hinit hrange hin hout hfU hrU hinv
    subst hinit
    rw [ntRoll_step seq k pos f r hs hrange hin]
    refine ⟨rfl, ?_⟩
    rw [ntRollBack_step seq k (pos + 1) _ _ _ (by omega)
      (by simpa using hout)]
    have e1 : pos + 1 - 1 = pos := by omega
    have e2 : pos + 1 + k - 1 = pos + k := by omega
    rw [e1, e2, roll_forward_inverse f k (seq.getD pos 0) (seq.getD (pos + k) 0) hfU,
      roll_reverse_inverse r k (seq.getD pos 0) (seq.getD (pos + k) 0) hrU,
      extendHashes_extendHashes, ← hinv]
  · intro st c o rest hwin hfU hrU hinv
    obtain ⟨win, k, pos, f, r, hs⟩ := st
    dsimp only at hwin hfU hrU hinv
    subst hwin
    refine ⟨_, by unfold blindRoll; rfl, ?_⟩
    unfold blindRollBack
    dsimp only
    rw [List.getLast?_concat]
    dsimp only
    rw [List.dropLast_concat,
      roll_forward_inverse f k o c hfU, roll_reverse_inverse r k o c hrU,
      extendHashes_extendHashes, ← hinv]
    have e3 : pos + 1 - 1 = pos := by omega
    rw [e3]

/-- Witness for C5: a concrete initialised standard hasher and a concrete
blind hasher, each rolled forward and back. -/
theorem c5_witness :
    ((ntRoll ⟨[65, 65, 65], 2, 0, true, 5, 7, extendHashes 5 7 2 [0, 0]⟩).1 = true ∧
      ntRollBack (ntRoll ⟨[65, 65, 65], 2, 0, true, 5, 7, extendHashes 5 7 2 [0, 0]⟩).2 =
        (true, ⟨[65, 65, 65], 2, 0, true, 5, 7, extendHashes 5 7 2 [0, 0]⟩)) ∧
    (∃ st1, blindRoll ⟨[65, 66], 2, 0, 5, 7, extendHashes 5 7 2 [0]⟩ 67 = some (true, st1) ∧
      blindRollBack st1 65 = some (true, ⟨[65, 66], 2, 0, 5, 7, extendHashes 5 7 2 [0]⟩)) :=
  ⟨c5_roll_roll_back_restores.1 ⟨[65, 65, 65], 2, 0, true, 5, 7, extendHashes 5 7 2 [0, 0]⟩
      rfl (by decide) (by decide) (by decide) (by decide) (by decide)
      (extendHashes_extendHashes 5 7 5 7 2 [0, 0]).symm,
   c5_roll_roll_back_restores.2 ⟨[65, 66], 2, 0, 5, 7, extendHashes 5 7 2 [0]⟩ 67 65 [66]
      rfl (by decide) (by decide) (extendHashes_extendHashes 5 7 5 7 2 [0]).symm⟩

end NtHashRs
